import Mathlib

/-!
Verification of the resource-override resolution pipeline of the
provider-jet-aws4 configuration module.

The Go sources embedded here are `config/overrides.go` (the seven
`tjconfig.ResourceOption` mutators together with their lookup tables) and
`config/provider.go` (the default per-resource mutator chain).  Descriptors,
schemas and references are the terrajet data carriers; Go maps are embedded
as association lists with replace-on-insert semantics, Go slices as lists.
-/

namespace Aws4Config

/-- Terraform plugin SDK `schema.ValueType`; `typeInvalid` is the Go zero
value. -/
inductive ValueType where
  | typeInvalid
  | typeBool
  | typeInt
  | typeFloat
  | typeString
  | typeList
  | typeMap
  | typeSet
  deriving DecidableEq

/-- Terraform plugin SDK `schema.Schema`, restricted to the attributes the
overrides module reads or writes.  Defaults are the Go zero values. -/
structure Schema where
  type : ValueType := ValueType.typeInvalid
  required : Bool := false
  optional : Bool := false
  computed : Bool := false
  sensitive : Bool := false
  description : String := ""
  deriving DecidableEq

/-- terrajet `config.Reference`: target type plus optional explicit
ref/selector field names and extractor.  Empty string is the Go zero value. -/
structure Reference where
  type : String := ""
  extractor : String := ""
  refFieldName : String := ""
  selectorFieldName : String := ""
  deriving DecidableEq

/-- terrajet `config.ExternalName`, restricted to the data attributes this
module touches (the function-valued members carry no data relevant here; the
`disableNameInitializer` flag distinguishes the provider presets). -/
structure ExternalName where
  omittedFields : List String := []
  disableNameInitializer : Bool := false
  deriving DecidableEq

/-- terrajet `config.IdentifierFromProvider` preset: identifier assigned by
the provider, no omitted fields of its own. -/
def identifierFromProvider : ExternalName :=
  { omittedFields := [], disableNameInitializer := true }

/-- terrajet `config.Resource`: the resource descriptor the mutator chain
rewrites.  `terraformSchema` embeds the Go map
`r.TerraformResource.Schema`, `references` the map `r.References`. -/
structure Resource where
  name : String
  shortGroup : String := ""
  kind : String := ""
  terraformSchema : List (String × Schema) := []
  externalName : ExternalName := {}
  references : List (String × Reference) := []
  deriving DecidableEq

/-- Go map read `m[k]`: first binding wins (bindings are unique in any list
that embeds an actual Go map). -/
def findKey {α : Type} (m : List (String × α)) (k : String) : Option α :=
  match m with
  | [] => none
  | (j, v) :: rest => if j = k then some v else findKey rest k

/-- Go map write `m[k] = v`: replace the existing binding in place, else
append a new binding. -/
def insertKey {α : Type} (m : List (String × α)) (k : String) (v : α) :
    List (String × α) :=
  match m with
  | [] => [(k, v)]
  | (j, w) :: rest =>
    if j = k then (k, v) :: rest else (j, w) :: insertKey rest k v

/-- Number of bindings of key `k` (1 at most whenever the list embeds a Go
map). -/
def countKey {α : Type} (m : List (String × α)) (k : String) : Nat :=
  (m.filter (fun p => p.1 == k)).length

/-- A descriptor is well formed when its schema association list has unique
keys, as the Go map it embeds guarantees. -/
def Resource.wfSchema (r : Resource) : Prop :=
  (r.terraformSchema.map Prod.fst).Nodup

instance (r : Resource) : Decidable r.wfSchema := by
  unfold Resource.wfSchema; infer_instance

/-- Go `strings.HasPrefix`. -/
def strStarts (s p : String) : Bool :=
  List.isPrefixOf p.data s.data

/-- Go `strings.HasSuffix`. -/
def strEnds (s suf : String) : Bool :=
  List.isSuffixOf suf.data s.data

/-- Go `strings.TrimPrefix`. -/
def trimStart (s p : String) : String :=
  if strStarts s p then String.mk (s.data.drop p.data.length) else s

/-- Go `strings.TrimSuffix`. -/
def trimEnd (s suf : String) : String :=
  if strEnds s suf then
    String.mk (s.data.take (s.data.length - suf.data.length))
  else s

/-- Go `strings.Split(·, "_")` on the underlying characters: every
underscore separates, the empty string yields one empty word. -/
def splitU (cs : List Char) : List (List Char) :=
  match cs with
  | [] => [[]]
  | c :: rest =>
    match splitU rest with
    | [] => [[]]
    | w :: ws => if c = '_' then [] :: w :: ws else (c :: w) :: ws

/-- Go `strings.Split(s, "_")`. -/
def splitSnake (s : String) : List String :=
  (splitU s.data).map String.mk

/-- Go `strings.Join(ws, sep)`. -/
def joinStr (sep : String) (ws : List String) : String :=
  match ws with
  | [] => ""
  | [w] => w
  | w :: rest => w ++ sep ++ joinStr sep rest

/-- Modelled from the spec: the naming transform of
`terrajet/pkg/types/name` (`name.NewFromSnake(·).Camel`), whose source is
not among the given files.  Spec 4.1: capitalize the first letter of a
word; empty segments stay empty. -/
def capitalize (w : String) : String :=
  match w.data with
  | [] => ""
  | c :: cs => String.mk (Char.toUpper c :: cs)

/-- Modelled from the spec: `SnakeToPascal` (spec 4.1) — split on `_`,
capitalize every word, concatenate, skipping empty segments. -/
def snakeToPascal (s : String) : String :=
  String.join ((splitSnake s).map capitalize)

/-- `ReplaceGroupWords` from the source, with the returned closure applied to
its resource name: use `group` as the group, drop `count` words from the
snake name after trimming the `aws_` vendor prefix, and take the Camel form
of the rest as the kind. -/
def replaceGroupWords (group : String) (count : Nat) (resource : String) :
    String × String :=
  let words := splitSnake (trimStart resource "aws_")
  let snakeKind := joinStr "_" (words.drop count)
  (group, snakeToPascal snakeKind)

/-- `GroupMap` from the source: each entry stores the parameters of its
`ReplaceGroupWords` closure. -/
def GroupMap : List (String × String × Nat) :=
  [("aws_route53_resolver_rule", ("route53resolver", 2)),
   ("aws_route53_resolver_rule_association", ("route53resolver", 2)),
   ("aws_route_table", ("ec2", 0))]

/-- `KindMap` from the source. -/
def KindMap : List (String × String) :=
  [("aws_autoscaling_group", "AutoscalingGroup"),
   ("aws_cloudformation_type", "CloudFormationType"),
   ("aws_config_configuration_recorder_status", "AWSConfigurationRecorderStatus"),
   ("aws_cloudtrail", "Trail")]

/-- `GroupKindOverrides` from the source. -/
def groupKindOverrides (r : Resource) : Resource :=
  match findKey GroupMap r.name with
  | some gc =>
    let gk := replaceGroupWords gc.1 gc.2 r.name
    { r with shortGroup := gk.1, kind := gk.2 }
  | none => r

/-- `KindOverrides` from the source. -/
def kindOverrides (r : Resource) : Resource :=
  match findKey KindMap r.name with
  | some k => { r with kind := k }
  | none => r

/-- Modelled from the spec: the comment value built by
`comments.New(c, comments.WithTFTag("-"))` of `terrajet/pkg/types/comments`,
whose source is not among the given files — a text plus an optional
Terraform-tag override rendered as a marker line. -/
structure Comment where
  text : String
  tfTag : Option String
  deriving DecidableEq

/-- Modelled from the spec: `comment.String()` renders the text followed by
the Terraform-tag exclusion marker when one is set. -/
def Comment.render (c : Comment) : String :=
  match c.tfTag with
  | some t => c.text ++ "+terrajet:crd:field:TFTag=" ++ t ++ "\n"
  | none => c.text

/-- The fixed region description from `RegionAddition` in the source. -/
def regionDesc : String :=
  "Region is the region you\x27d like your resource to be created in.\n"

/-- The comment `RegionAddition` builds: the fixed description with the
Terraform tag set to `-` (excluded from Terraform serialization). -/
def regionComment : Comment :=
  { text := regionDesc, tfTag := some "-" }

/-- The schema entry `RegionAddition` writes for `region`. -/
def regionSchema : Schema :=
  { type := ValueType.typeString, required := true,
    description := regionComment.render }

/-- `RegionAddition` from the source, with the outcome of the comment
collaborator as a parameter: `Except.error` embeds the Go `panic` on a
failed `comments.New`. -/
def regionAdditionWith (cres : Except String Comment) (r : Resource) :
    Except String Resource :=
  if r.shortGroup = "iam" then Except.ok r
  else
    match cres with
    | Except.error e =>
      Except.error ("cannot build comment for region: " ++ e)
    | Except.ok c =>
      let entry : Schema :=
        { type := ValueType.typeString, required := true,
          description := c.render }
      Except.ok { r with
        terraformSchema := insertKey r.terraformSchema "region" entry }

/-- `RegionAddition` from the source on the successful path (the comment
collaborator accepts the fixed well-formed description). -/
def regionAddition (r : Resource) : Resource :=
  if r.shortGroup = "iam" then r
  else { r with
    terraformSchema := insertKey r.terraformSchema "region" regionSchema }

/-- `TagsAllRemoval` from the source: make an existing `tags_all` field
computed-only.  The Go code mutates the schema entry through its pointer;
the embedding rewrites the binding in place. -/
def tagsAllRemoval (r : Resource) : Resource :=
  match findKey r.terraformSchema "tags_all" with
  | some t =>
    let entry : Schema := { t with computed := true, optional := false }
    { r with
      terraformSchema := insertKey r.terraformSchema "tags_all" entry }
  | none => r

/-- `IdentifierAssignedByAWS` from the source. -/
def identifierAssignedByAWS (r : Resource) : Resource :=
  { r with externalName := identifierFromProvider }

/-- `NamePrefixRemoval` from the source. -/
def namePrefixRemoval (r : Resource) : Resource :=
  if r.externalName.omittedFields.contains "name_prefix" then r
  else
    let en : ExternalName := { r.externalName with
      omittedFields := r.externalName.omittedFields ++ ["name_prefix"] }
    { r with externalName := en }

/-- Modelled from the spec: `common.PathARNExtractor` of `config/common`,
whose source is not among the given files — the identifier of the ARN-path
value-extraction strategy. -/
def pathARNExtractor : String :=
  "PathARNExtractor"

/-- The reference written for a `role_arn`-suffixed field. -/
def roleArnRef : Reference :=
  { type := "github.com/crossplane-contrib/provider-jet-aws/apis/iam/v1alpha2.Role",
    extractor := pathARNExtractor }

/-- The reference written for a `security_group_ids`-suffixed field. -/
def securityGroupIdsRef (k : String) : Reference :=
  { type := "github.com/crossplane-contrib/provider-jet-aws/apis/ec2/v1alpha2.SecurityGroup",
    refFieldName := trimEnd (snakeToPascal k) "s" ++ "Refs",
    selectorFieldName := trimEnd (snakeToPascal k) "s" ++ "Selector" }

/-- The cross-group reference written for `vpc_id`. -/
def vpcIdRef : Reference :=
  { type := "github.com/crossplane-contrib/provider-jet-aws/apis/ec2/v1alpha2.VPC",
    refFieldName := "VpcIdRef", selectorFieldName := "VpcIdSelector" }

/-- The intra-group reference written for `vpc_id` on an `ec2` resource. -/
def vpcIdShortRef : Reference :=
  { type := "VPC", refFieldName := "VpcIdRef",
    selectorFieldName := "VpcIdSelector" }

/-- The cross-group reference written for `subnet_ids`. -/
def subnetIdsRef : Reference :=
  { type := "github.com/crossplane-contrib/provider-jet-aws/apis/ec2/v1alpha2.Subnet",
    refFieldName := "SubnetIdRefs", selectorFieldName := "SubnetIdSelector" }

/-- The intra-group reference written for `subnet_ids` on an `ec2`
resource. -/
def subnetIdsShortRef : Reference :=
  { type := "Subnet", refFieldName := "SubnetIdRefs",
    selectorFieldName := "SubnetIdSelector" }

/-- The reference written for `subnet_id`. -/
def subnetIdRef : Reference :=
  { type := "github.com/crossplane-contrib/provider-jet-aws/apis/ec2/v1alpha2.Subnet" }

/-- The reference written for `security_group_id`. -/
def securityGroupIdRef : Reference :=
  { type := "github.com/crossplane-contrib/provider-jet-aws/apis/ec2/v1alpha2.SecurityGroup" }

/-- The reference written for `kms_key_id`, `kms_key_arn` and `kms_key`. -/
def kmsKeyRef : Reference :=
  { type := "github.com/crossplane-contrib/provider-jet-aws/apis/kms/v1alpha2.Key" }

/-- The per-field body of `KnownReferencers` from the source: skip status
and sensitive fields, then run the suffix switch and the exact-name switch
in order, each writing `r.References[k]`. -/
def applyReferencer (g : String) (refs : List (String × Reference))
    (k : String) (s : Schema) : List (String × Reference) :=
  if (s.computed && !s.optional) || s.sensitive then refs
  else
    let refs1 :=
      if strEnds k "role_arn" then insertKey refs k roleArnRef
      else if strEnds k "security_group_ids" then
        insertKey refs k (securityGroupIdsRef k)
      else refs
    if k = "vpc_id" then
      let refs2 := insertKey refs1 "vpc_id" vpcIdRef
      if g = "ec2" then insertKey refs2 "vpc_id" vpcIdShortRef else refs2
    else if k = "subnet_ids" then
      let refs2 := insertKey refs1 "subnet_ids" subnetIdsRef
      if g = "ec2" then insertKey refs2 "subnet_ids" subnetIdsShortRef
      else refs2
    else if k = "subnet_id" then insertKey refs1 "subnet_id" subnetIdRef
    else if k = "security_group_id" then
      insertKey refs1 "security_group_id" securityGroupIdRef
    else if k = "kms_key_id" then insertKey refs1 "kms_key_id" kmsKeyRef
    else if k = "kms_key_arn" then insertKey refs1 "kms_key_arn" kmsKeyRef
    else if k = "kms_key" then insertKey refs1 "kms_key" kmsKeyRef
    else refs1

/-- `KnownReferencers` from the source.  The Go `range` order over the
schema map is immaterial: each field only ever writes its own key. -/
def knownReferencers (r : Resource) : Resource :=
  let refs := r.terraformSchema.foldl
    (fun acc p => applyReferencer r.shortGroup acc p.1 p.2) r.references
  { r with references := refs }

/-- The default per-resource option chain of `GetProvider` in
`config/provider.go`, in source order. -/
def defaultResourceChain (r : Resource) : Resource :=
  knownReferencers (namePrefixRemoval (identifierAssignedByAWS
    (tagsAllRemoval (regionAddition (kindOverrides (groupKindOverrides r))))))

/-! ### Association-list lemmas: Go map reads and writes -/

theorem findKey_insertKey_self {α : Type} (m : List (String × α)) (k : String)
    (v : α) : findKey (insertKey m k v) k = some v := by
  induction m with
  | nil => simp [insertKey, findKey]
  | cons p rest ih =>
    obtain ⟨j, w⟩ := p
    by_cases h : j = k
    · simp [insertKey, h, findKey]
    · simp [insertKey, h, findKey, ih]

theorem findKey_insertKey_ne {α : Type} (m : List (String × α)) (k j : String)
    (v : α) (h : j ≠ k) : findKey (insertKey m k v) j = findKey m j := by
  have h' : ¬ k = j := fun hkj => h hkj.symm
  induction m with
  | nil => simp [insertKey, findKey, h']
  | cons p rest ih =>
    obtain ⟨j0, w⟩ := p
    by_cases h0 : j0 = k
    · subst h0
      simp [insertKey, findKey, h']
    · simp only [insertKey, if_neg h0, findKey]
      by_cases h1 : j0 = j
      · simp [h1]
      · simp [h1, ih]

theorem insertKey_insertKey {α : Type} (m : List (String × α)) (k : String)
    (v w : α) : insertKey (insertKey m k v) k w = insertKey m k w := by
  induction m with
  | nil => simp [insertKey]
  | cons p rest ih =>
    obtain ⟨j, u⟩ := p
    by_cases h : j = k
    · simp [insertKey, h]
    · simp [insertKey, h, ih]

theorem insertKey_of_findKey_eq {α : Type} (m : List (String × α))
    (k : String) (v : α) (h : findKey m k = some v) : insertKey m k v = m := by
  induction m with
  | nil => simp [findKey] at h
  | cons p rest ih =>
    obtain ⟨j, u⟩ := p
    by_cases h0 : j = k
    · subst h0
      simp only [findKey, if_pos, Option.some.injEq] at h
      simp [insertKey, h]
    · simp only [findKey, if_neg h0] at h
      simp [insertKey, h0, ih h]

theorem findKey_eq_none {α : Type} (m : List (String × α)) (k : String)
    (h : k ∉ m.map Prod.fst) : findKey m k = none := by
  induction m with
  | nil => simp [findKey]
  | cons p rest ih =>
    obtain ⟨j, u⟩ := p
    simp only [List.map_cons, List.mem_cons, not_or] at h
    have hj : ¬ j = k := fun hj => h.1 hj.symm
    simp [findKey, hj, ih h.2]

theorem countKey_insertKey {α : Type} (m : List (String × α)) (k : String)
    (v : α) :
    countKey (insertKey m k v) k =
      if countKey m k = 0 then 1 else countKey m k := by
  induction m with
  | nil => simp [insertKey, countKey]
  | cons p rest ih =>
    obtain ⟨j, u⟩ := p
    by_cases h : j = k
    · subst h
      simp [insertKey, countKey, List.filter]
    · have hb : (j == k) = false := by simp [h]
      simp only [insertKey, if_neg h]
      simp only [countKey, List.filter, hb] at ih ⊢
      exact ih

theorem countKey_eq_zero {α : Type} (m : List (String × α)) (k : String)
    (h : k ∉ m.map Prod.fst) : countKey m k = 0 := by
  induction m with
  | nil => simp [countKey]
  | cons p rest ih =>
    obtain ⟨j, u⟩ := p
    simp only [List.map_cons, List.mem_cons, not_or] at h
    have hj : ¬ j = k := fun hj => h.1 hj.symm
    have hb : (j == k) = false := by simp [hj]
    simp only [countKey, List.filter, hb]
    exact ih h.2

/-! ### Characterization of the reference-wiring switches -/

/-- The value of the suffix switch of `KnownReferencers` for field `k`. -/
def suffixRule (k : String) : Option Reference :=
  if strEnds k "role_arn" then some roleArnRef
  else if strEnds k "security_group_ids" then some (securityGroupIdsRef k)
  else none

/-- The value of the exact-name switch of `KnownReferencers` for field `k`
under group `g`. -/
def exactRule (g k : String) : Option Reference :=
  if k = "vpc_id" then some (if g = "ec2" then vpcIdShortRef else vpcIdRef)
  else if k = "subnet_ids" then
    some (if g = "ec2" then subnetIdsShortRef else subnetIdsRef)
  else if k = "subnet_id" then some subnetIdRef
  else if k = "security_group_id" then some securityGroupIdRef
  else if k = "kms_key_id" then some kmsKeyRef
  else if k = "kms_key_arn" then some kmsKeyRef
  else if k = "kms_key" then some kmsKeyRef
  else none

/-- The net reference value both switches leave for field `k` under group
`g` (the exact-name switch runs second and wins). -/
def ruleValue (g k : String) : Option Reference :=
  match exactRule g k with
  | some v => some v
  | none => suffixRule k

/-- The net effect of one `KnownReferencers` loop iteration on the
references entry of its own field. -/
def fieldRule (g k : String) (s : Schema) : Option Reference :=
  if (s.computed && !s.optional) || s.sensitive then none
  else ruleValue g k

theorem applyReferencer_eq (g : String) (refs : List (String × Reference))
    (k : String) (s : Schema) :
    applyReferencer g refs k s =
      match fieldRule g k s with
      | some v => insertKey refs k v
      | none => refs := by
  by_cases hskip : ((s.computed && !s.optional) || s.sensitive) = true
  · simp [applyReferencer, fieldRule, hskip]
  · simp only [applyReferencer, fieldRule, ruleValue, exactRule, suffixRule,
      hskip, if_false, Bool.false_eq_true]
    by_cases h1 : k = "vpc_id"
    · subst h1
      by_cases hg : g = "ec2" <;>
        simp [hg, insertKey_insertKey,
          show strEnds "vpc_id" "role_arn" = false from rfl,
          show strEnds "vpc_id" "security_group_ids" = false from rfl]
    · by_cases h2 : k = "subnet_ids"
      · subst h2
        by_cases hg : g = "ec2" <;>
          simp [hg, insertKey_insertKey,
            show strEnds "subnet_ids" "role_arn" = false from rfl,
            show strEnds "subnet_ids" "security_group_ids" = false from rfl]
      · by_cases h3 : k = "subnet_id"
        · subst h3
          simp [show strEnds "subnet_id" "role_arn" = false from rfl,
            show strEnds "subnet_id" "security_group_ids" = false from rfl]
        · by_cases h4 : k = "security_group_id"
          · subst h4
            simp [show strEnds "security_group_id" "role_arn" = false from rfl,
              show strEnds "security_group_id" "security_group_ids" = false
                from rfl]
          · by_cases h5 : k = "kms_key_id"
            · subst h5
              simp [show strEnds "kms_key_id" "role_arn" = false from rfl,
                show strEnds "kms_key_id" "security_group_ids" = false
                  from rfl]
            · by_cases h6 : k = "kms_key_arn"
              · subst h6
                simp [show strEnds "kms_key_arn" "role_arn" = false from rfl,
                  show strEnds "kms_key_arn" "security_group_ids" = false
                    from rfl]
              · by_cases h7 : k = "kms_key"
                · subst h7
                  simp [show strEnds "kms_key" "role_arn" = false from rfl,
                    show strEnds "kms_key" "security_group_ids" = false
                      from rfl]
                · simp only [h1, h2, h3, h4, h5, h6, h7, if_false]
                  by_cases hs1 : strEnds k "role_arn" = true
                  · simp [hs1]
                  · by_cases hs2 : strEnds k "security_group_ids" = true <;>
                      simp [hs1, hs2]

theorem findKey_applyReferencer_self (g : String)
    (refs : List (String × Reference)) (k : String) (s : Schema) :
    findKey (applyReferencer g refs k s) k =
      match fieldRule g k s with
      | some v => some v
      | none => findKey refs k := by
  rw [applyReferencer_eq]
  cases fieldRule g k s with
  | some v => simp [findKey_insertKey_self]
  | none => simp

theorem findKey_applyReferencer_ne (g : String)
    (refs : List (String × Reference)) (k j : String) (s : Schema)
    (h : j ≠ k) :
    findKey (applyReferencer g refs k s) j = findKey refs j := by
  rw [applyReferencer_eq]
  cases fieldRule g k s with
  | some v => simp [findKey_insertKey_ne _ _ _ _ h]
  | none => simp

/-- One step of the `KnownReferencers` loop. -/
def refStep (g : String) (acc : List (String × Reference))
    (p : String × Schema) : List (String × Reference) :=
  applyReferencer g acc p.1 p.2

theorem knownReferencers_references (r : Resource) :
    (knownReferencers r).references =
      r.terraformSchema.foldl (refStep r.shortGroup) r.references := rfl

/-- Fields whose key never fires a rule leave the references entry of that
key alone, across the whole loop. -/
theorem findKey_foldl_frame (g : String) (schema : List (String × Schema)) :
    ∀ (refs : List (String × Reference)) (k : String),
      (∀ s, (k, s) ∈ schema → fieldRule g k s = none) →
      findKey (schema.foldl (refStep g) refs) k = findKey refs k := by
  induction schema with
  | nil => intro refs k _; rfl
  | cons p rest ih =>
    intro refs k h
    obtain ⟨j, s⟩ := p
    simp only [List.foldl_cons]
    have hrest : ∀ s, (k, s) ∈ rest → fieldRule g k s = none := by
      intro s' hs'
      exact h s' (List.mem_cons_of_mem _ hs')
    rw [ih _ k hrest]
    by_cases hj : k = j
    · subst hj
      have : fieldRule g k s = none := h s (List.mem_cons_self _ _)
      simp only [refStep]
      rw [applyReferencer_eq]
      simp [this]
    · exact findKey_applyReferencer_ne _ _ _ _ _ hj

theorem fieldRule_some_ruleValue (g k : String) (s : Schema)
    (v : Reference) (h : fieldRule g k s = some v) : ruleValue g k = some v := by
  unfold fieldRule at h
  by_cases hskip : ((s.computed && !s.optional) || s.sensitive) = true
  · simp [hskip] at h
  · simpa [hskip] using h

/-- Any field of the schema whose rule fires ends the loop with its rule
value bound to its key, however many times the key occurs. -/
theorem findKey_foldl_of_active (g : String) (schema : List (String × Schema)) :
    ∀ (refs : List (String × Reference)) (k : String) (s : Schema)
      (v : Reference), (k, s) ∈ schema → fieldRule g k s = some v →
      findKey (schema.foldl (refStep g) refs) k = some v := by
  induction schema with
  | nil => intro _ _ _ _ h; simp at h
  | cons p rest ih =>
    intro refs k s v hmem hrule
    obtain ⟨j, s0⟩ := p
    simp only [List.foldl_cons]
    rcases List.mem_cons.mp hmem with hhead | htail
    · have hk : k = j := congrArg Prod.fst hhead
      have hs : s = s0 := congrArg Prod.snd hhead
      subst hk
      subst hs
      by_cases hact : ∃ s2 v2, (k, s2) ∈ rest ∧ fieldRule g k s2 = some v2
      · obtain ⟨s2, v2, hmem2, hrule2⟩ := hact
        have hv : v2 = v := by
          have h1 := fieldRule_some_ruleValue g k s v hrule
          have h2 := fieldRule_some_ruleValue g k s2 v2 hrule2
          rw [h1] at h2
          exact (Option.some.inj h2).symm
        rw [hv] at hrule2
        exact ih _ k s2 v hmem2 hrule2
      · have hnone : ∀ s2, (k, s2) ∈ rest → fieldRule g k s2 = none := by
          intro s2 hmem2
          cases hr : fieldRule g k s2 with
          | none => rfl
          | some v2 => exact absurd ⟨s2, v2, hmem2, hr⟩ hact
        rw [findKey_foldl_frame g rest _ k hnone]
        simp only [refStep]
        rw [findKey_applyReferencer_self]
        simp [hrule]
    · exact ih _ k s v htail hrule

/-- Full characterization of the references map produced by the
`KnownReferencers` loop, for a schema with unique keys (every Go map). -/
theorem findKey_foldl_refStep (g : String) (schema : List (String × Schema)) :
    ∀ (refs : List (String × Reference)) (k : String),
      (schema.map Prod.fst).Nodup →
      findKey (schema.foldl (refStep g) refs) k =
        match findKey schema k with
        | some s =>
          match fieldRule g k s with
          | some v => some v
          | none => findKey refs k
        | none => findKey refs k := by
  induction schema with
  | nil => intro refs k _; rfl
  | cons p rest ih =>
    intro refs k hnd
    obtain ⟨j, s0⟩ := p
    simp only [List.map_cons, List.nodup_cons] at hnd
    obtain ⟨hj, hrest⟩ := hnd
    simp only [List.foldl_cons]
    rw [ih _ k hrest]
    by_cases hk : j = k
    · subst hk
      have hnone : findKey rest j = none :=
        findKey_eq_none rest j hj
    -- the head binding is the one `findKey` returns
      simp only [findKey, if_pos rfl, hnone]
      simp only [refStep]
      rw [findKey_applyReferencer_self]
      simp
    · simp only [findKey, if_neg hk]
      have hne : findKey (refStep g refs (j, s0)) k = findKey refs k :=
        findKey_applyReferencer_ne _ _ _ _ _ (fun h => hk h.symm)
      cases hfind : findKey rest k with
      | none => simp [hne]
      | some s =>
        cases hfr : fieldRule g k s with
        | none => simp [hfr, hne]
        | some v => simp [hfr]

theorem knownReferencers_findKey (r : Resource) (k : String)
    (h : r.wfSchema) :
    findKey (knownReferencers r).references k =
      match findKey r.terraformSchema k with
      | some s =>
        match fieldRule r.shortGroup k s with
        | some v => some v
        | none => findKey r.references k
      | none => findKey r.references k := by
  rw [knownReferencers_references]
  exact findKey_foldl_refStep r.shortGroup r.terraformSchema r.references k h

theorem foldl_refStep_of_settled (g : String)
    (schema : List (String × Schema)) :
    ∀ refs, (∀ p ∈ schema, refStep g refs p = refs) →
      schema.foldl (refStep g) refs = refs := by
  induction schema with
  | nil => intro refs _; rfl
  | cons p rest ih =>
    intro refs h
    simp only [List.foldl_cons]
    rw [h p (List.mem_cons_self _ _)]
    exact ih refs (fun q hq => h q (List.mem_cons_of_mem _ hq))

theorem applyReferencer_fixpoint (g : String)
    (refs : List (String × Reference)) (k : String) (s : Schema)
    (h : ∀ v, fieldRule g k s = some v → findKey refs k = some v) :
    applyReferencer g refs k s = refs := by
  rw [applyReferencer_eq]
  cases hr : fieldRule g k s with
  | none => rfl
  | some v => exact insertKey_of_findKey_eq refs k v (h v hr)

theorem knownReferencers_def (x : Resource) :
    knownReferencers x = { x with references := (knownReferencers x).references } := rfl

theorem knownReferencers_idem (r : Resource) :
    knownReferencers (knownReferencers r) = knownReferencers r := by
  have hsettled : ∀ p ∈ r.terraformSchema,
      refStep r.shortGroup (knownReferencers r).references p =
        (knownReferencers r).references := by
    intro p hp
    obtain ⟨k, s⟩ := p
    apply applyReferencer_fixpoint
    intro v hv
    rw [knownReferencers_references]
    exact findKey_foldl_of_active r.shortGroup r.terraformSchema
      r.references k s v hp hv
  have h : (knownReferencers (knownReferencers r)).references =
      (knownReferencers r).references := by
    rw [knownReferencers_references (knownReferencers r)]
    have hschema : (knownReferencers r).terraformSchema =
        r.terraformSchema := rfl
    have hgroup : (knownReferencers r).shortGroup = r.shortGroup := rfl
    rw [hschema, hgroup]
    exact foldl_refStep_of_settled r.shortGroup r.terraformSchema
      (knownReferencers r).references hsettled
  calc knownReferencers (knownReferencers r)
      = { knownReferencers r with references := (knownReferencers (knownReferencers r)).references } :=
        knownReferencers_def (knownReferencers r)
    _ = { knownReferencers r with references := (knownReferencers r).references } := by rw [h]
    _ = knownReferencers r := rfl

/-! ### Idempotence of the remaining mutators -/

theorem groupKindOverrides_idem (r : Resource) :
    groupKindOverrides (groupKindOverrides r) = groupKindOverrides r := by
  cases h : findKey GroupMap r.name with
  | none => simp [groupKindOverrides, h]
  | some gc => simp [groupKindOverrides, h]

theorem kindOverrides_idem (r : Resource) :
    kindOverrides (kindOverrides r) = kindOverrides r := by
  cases h : findKey KindMap r.name with
  | none => simp [kindOverrides, h]
  | some k => simp [kindOverrides, h]

theorem regionAddition_idem (r : Resource) :
    regionAddition (regionAddition r) = regionAddition r := by
  by_cases hg : r.shortGroup = "iam"
  · simp [regionAddition, hg]
  · simp [regionAddition, hg, insertKey_insertKey]

theorem tagsAllRemoval_idem (r : Resource) :
    tagsAllRemoval (tagsAllRemoval r) = tagsAllRemoval r := by
  cases h : findKey r.terraformSchema "tags_all" with
  | none => simp [tagsAllRemoval, h]
  | some t =>
    simp only [tagsAllRemoval, h]
    simp [findKey_insertKey_self, insertKey_insertKey]

theorem identifierAssignedByAWS_idem (r : Resource) :
    identifierAssignedByAWS (identifierAssignedByAWS r) =
      identifierAssignedByAWS r := rfl

theorem namePrefixRemoval_contains (r : Resource) :
    ((namePrefixRemoval r).externalName.omittedFields.contains
      "name_prefix") = true := by
  by_cases h : (r.externalName.omittedFields.contains "name_prefix") = true
  · unfold namePrefixRemoval
    rw [if_pos h]
    exact h
  · unfold namePrefixRemoval
    rw [if_neg h]
    simp

theorem namePrefixRemoval_idem (r : Resource) :
    namePrefixRemoval (namePrefixRemoval r) = namePrefixRemoval r := by
  conv_lhs => rw [namePrefixRemoval]
  rw [if_pos (namePrefixRemoval_contains r)]

/-! ### Suffix disambiguation facts -/

theorem strEnds_iff (s suf : String) :
    strEnds s suf = true ↔ suf.data <:+ s.data := by
  unfold strEnds
  exact List.isSuffixOf_iff_suffix

theorem not_roleArn_of_sgIds (k : String)
    (h : strEnds k "security_group_ids" = true) :
    strEnds k "role_arn" = false := by
  by_contra hr
  have hr' : strEnds k "role_arn" = true := by
    cases hb : strEnds k "role_arn" with
    | true => rfl
    | false => exact absurd hb hr
  have h1 := (strEnds_iff k "security_group_ids").mp h
  have h2 := (strEnds_iff k "role_arn").mp hr'
  rcases List.suffix_or_suffix_of_suffix h2 h1 with hc | hc
  · exact absurd hc (by decide)
  · exact absurd hc (by decide)

theorem exactRule_none_of_sgIds (g k : String)
    (h : strEnds k "security_group_ids" = true) :
    exactRule g k = none := by
  have h1 : k ≠ "vpc_id" := by
    intro he; rw [he] at h; exact absurd h (by decide)
  have h2 : k ≠ "subnet_ids" := by
    intro he; rw [he] at h; exact absurd h (by decide)
  have h3 : k ≠ "subnet_id" := by
    intro he; rw [he] at h; exact absurd h (by decide)
  have h4 : k ≠ "security_group_id" := by
    intro he; rw [he] at h; exact absurd h (by decide)
  have h5 : k ≠ "kms_key_id" := by
    intro he; rw [he] at h; exact absurd h (by decide)
  have h6 : k ≠ "kms_key_arn" := by
    intro he; rw [he] at h; exact absurd h (by decide)
  have h7 : k ≠ "kms_key" := by
    intro he; rw [he] at h; exact absurd h (by decide)
  simp [exactRule, h1, h2, h3, h4, h5, h6, h7]

/-! ### Claims -/

/-- C1 (amended): each of the seven mutators of the override chain is
idempotent on every descriptor.  The quantitative parentheticals hold under
the guards the counterexample forces: the double region injection leaves
exactly one `region` binding, with the fixed required flag and description,
on descriptors outside the sentinel `iam` group whose schema respects the
Go-map key-uniqueness invariant; the double name-prefix omission leaves
exactly one `name_prefix` entry when the input omitted-fields list does not
already hold duplicates of it. -/
theorem c1_mutators_idempotent (r : Resource) :
    groupKindOverrides (groupKindOverrides r) = groupKindOverrides r ∧
    kindOverrides (kindOverrides r) = kindOverrides r ∧
    regionAddition (regionAddition r) = regionAddition r ∧
    tagsAllRemoval (tagsAllRemoval r) = tagsAllRemoval r ∧
    identifierAssignedByAWS (identifierAssignedByAWS r) =
      identifierAssignedByAWS r ∧
    namePrefixRemoval (namePrefixRemoval r) = namePrefixRemoval r ∧
    knownReferencers (knownReferencers r) = knownReferencers r ∧
    (r.shortGroup ≠ "iam" → countKey r.terraformSchema "region" ≤ 1 →
      countKey (regionAddition (regionAddition r)).terraformSchema "region"
          = 1 ∧
      findKey (regionAddition (regionAddition r)).terraformSchema "region"
          = some regionSchema) ∧
    (List.count "name_prefix" r.externalName.omittedFields ≤ 1 →
      List.count "name_prefix"
        (namePrefixRemoval (namePrefixRemoval r)).externalName.omittedFields
          = 1) := by
  refine ⟨groupKindOverrides_idem r, kindOverrides_idem r,
    regionAddition_idem r, tagsAllRemoval_idem r,
    identifierAssignedByAWS_idem r, namePrefixRemoval_idem r,
    knownReferencers_idem r, ?_, ?_⟩
  · intro hiam hcnt
    rw [regionAddition_idem r]
    unfold regionAddition
    rw [if_neg hiam]
    constructor
    · show countKey (insertKey r.terraformSchema "region" regionSchema)
        "region" = 1
      rw [countKey_insertKey]
      by_cases hz : countKey r.terraformSchema "region" = 0
      · simp [hz]
      · rw [if_neg hz]
        omega
    · exact findKey_insertKey_self r.terraformSchema "region" regionSchema
  · intro hle
    rw [namePrefixRemoval_idem r]
    unfold namePrefixRemoval
    by_cases h : (r.externalName.omittedFields.contains "name_prefix") = true
    · rw [if_pos h]
      have hmem : "name_prefix" ∈ r.externalName.omittedFields := by
        simpa using h
      have hpos := List.count_pos_iff.mpr hmem
      omega
    · rw [if_neg h]
      have hmem : "name_prefix" ∉ r.externalName.omittedFields := by
        intro hm
        exact h (by simpa using hm)
      show List.count "name_prefix"
        (r.externalName.omittedFields ++ ["name_prefix"]) = 1
      rw [List.count_append, List.count_eq_zero.mpr hmem]
      rfl

/-- C1 counterexample: on an `iam`-group descriptor two region injections
leave no `region` field at all, and on a descriptor whose omitted-fields
list already holds `name_prefix` twice two name-prefix omissions leave two
entries — so the parenthetical of the claim fails as universally stated. -/
theorem c1_cex :
    ¬ (countKey (regionAddition (regionAddition
        ({ name := "aws_iam_user", shortGroup := "iam" } : Resource))).terraformSchema
        "region" = 1) ∧
    ¬ (List.count "name_prefix"
        (namePrefixRemoval (namePrefixRemoval
          ({ name := "aws_x", externalName :=
            { omittedFields := ["name_prefix", "name_prefix"] } } : Resource))).externalName.omittedFields
        = 1) := by
  constructor
  · decide
  · decide

/-- C1 witness: the amended guarded parts evaluated on a concrete non-iam
descriptor with an empty schema and no omitted fields. -/
theorem c1_wit :
    countKey (regionAddition (regionAddition
      ({ name := "aws_sqs_queue", shortGroup := "sqs" } : Resource))).terraformSchema
      "region" = 1 ∧
    List.count "name_prefix"
      (namePrefixRemoval (namePrefixRemoval
        ({ name := "aws_sqs_queue", shortGroup := "sqs" } : Resource))).externalName.omittedFields
      = 1 := by
  have h := c1_mutators_idempotent
    ({ name := "aws_sqs_queue", shortGroup := "sqs" } : Resource)
  refine ⟨(h.2.2.2.2.2.2.2.1 (by decide) (by decide)).1, ?_⟩
  exact h.2.2.2.2.2.2.2.2 (by decide)

/-- The group-override kind computation as the spec words it: strip the
`aws_` vendor prefix, split the rest on `_`, discard the configured number
of leading words, and convert what remains to PascalCase. -/
def specOverrideKind (resource : String) (count : Nat) : String :=
  String.join (((splitSnake (trimStart resource "aws_")).drop count).map
    capitalize)

/-- C2: every entry of the group-override table computes its kind exactly
as the spec describes, with the configured literal group; in particular the
`aws_route53_resolver_rule` override (drop 2) yields kind `Rule` and the
`aws_route_table` override (drop 0) yields kind `RouteTable`, and the
mutator installs those values. -/
theorem c2_group_overrides :
    (∀ p ∈ GroupMap,
      replaceGroupWords p.2.1 p.2.2 p.1 =
        (p.2.1, specOverrideKind p.1 p.2.2)) ∧
    replaceGroupWords "route53resolver" 2 "aws_route53_resolver_rule" =
      ("route53resolver", "Rule") ∧
    replaceGroupWords "ec2" 0 "aws_route_table" = ("ec2", "RouteTable") ∧
    (groupKindOverrides
      ({ name := "aws_route53_resolver_rule" } : Resource)).kind = "Rule" ∧
    (groupKindOverrides
      ({ name := "aws_route53_resolver_rule" } : Resource)).shortGroup =
        "route53resolver" ∧
    (groupKindOverrides ({ name := "aws_route_table" } : Resource)).kind =
      "RouteTable" ∧
    (groupKindOverrides
      ({ name := "aws_route_table" } : Resource)).shortGroup = "ec2" := by
  decide

/-- C2 witness: the table-wide description applied to the
`aws_route_table` entry. -/
theorem c2_wit :
    replaceGroupWords "ec2" 0 "aws_route_table" =
      ("ec2", specOverrideKind "aws_route_table" 0) :=
  c2_group_overrides.1 ("aws_route_table", ("ec2", 0)) (by decide)

/-- C3 counterexample: a non-computed, non-sensitive field named
`db_security_group_ids` receives reference/selector field names
`DbSecurityGroupIdRefs`/`DbSecurityGroupIdSelector` — stripping the single
trailing `s` from `DbSecurityGroupIds` keeps the `Id` word — not the
claimed `DbSecurityGroupRefs`/`DbSecurityGroupSelector`. -/
theorem c3_cex :
    (findKey (knownReferencers
      ({ name := "aws_db_instance", shortGroup := "rds",
         terraformSchema := [("db_security_group_ids",
           { type := ValueType.typeList, optional := true })] } : Resource)).references
      "db_security_group_ids").map Reference.refFieldName =
        some "DbSecurityGroupIdRefs" ∧
    (findKey (knownReferencers
      ({ name := "aws_db_instance", shortGroup := "rds",
         terraformSchema := [("db_security_group_ids",
           { type := ValueType.typeList, optional := true })] } : Resource)).references
      "db_security_group_ids").map Reference.selectorFieldName =
        some "DbSecurityGroupIdSelector" ∧
    "DbSecurityGroupIdRefs" ≠ "DbSecurityGroupRefs" ∧
    "DbSecurityGroupIdSelector" ≠ "DbSecurityGroupSelector" := by
  refine ⟨?_, ?_, by decide, by decide⟩ <;> decide

/-- C3 (amended): every non-computed-only, non-sensitive schema field whose
name ends with `security_group_ids` receives a security-group reference
whose ref/selector field names are the PascalCase of the field name with
one trailing `s` stripped, then `Refs`/`Selector` appended (so
`db_security_group_ids` yields `DbSecurityGroupIdRefs` and
`DbSecurityGroupIdSelector`). -/
theorem c3_sg_ids_reference (r : Resource) (k : String) (s : Schema)
    (hwf : r.wfSchema)
    (hfind : findKey r.terraformSchema k = some s)
    (hsuf : strEnds k "security_group_ids" = true)
    (hskip : ((s.computed && !s.optional) || s.sensitive) = false) :
    findKey (knownReferencers r).references k =
      some (securityGroupIdsRef k) ∧
    (securityGroupIdsRef k).refFieldName =
      trimEnd (snakeToPascal k) "s" ++ "Refs" ∧
    (securityGroupIdsRef k).selectorFieldName =
      trimEnd (snakeToPascal k) "s" ++ "Selector" := by
  have hrule : fieldRule r.shortGroup k s = some (securityGroupIdsRef k) := by
    unfold fieldRule ruleValue
    rw [if_neg (by simp [hskip]), exactRule_none_of_sgIds r.shortGroup k hsuf]
    unfold suffixRule
    rw [if_neg (by simp [not_roleArn_of_sgIds k hsuf]), if_pos hsuf]
  refine ⟨?_, rfl, rfl⟩
  rw [knownReferencers_findKey r k hwf, hfind]
  simp [hrule]

/-- C3 witness: the amended rule applied to the concrete
`db_security_group_ids` field. -/
theorem c3_wit :
    findKey (knownReferencers
      ({ name := "aws_db_instance", shortGroup := "rds",
         terraformSchema := [("db_security_group_ids",
           { type := ValueType.typeList, optional := true })] } : Resource)).references
      "db_security_group_ids" =
        some (securityGroupIdsRef "db_security_group_ids") :=
  (c3_sg_ids_reference
    ({ name := "aws_db_instance", shortGroup := "rds",
       terraformSchema := [("db_security_group_ids",
         { type := ValueType.typeList, optional := true })] } : Resource)
    "db_security_group_ids"
    ({ type := ValueType.typeList, optional := true } : Schema)
    (by decide) (by decide) (by decide) (by decide)).1

/-- C4 counterexample: on a descriptor that already defines `region` as an
optional sensitive boolean field, region injection resets the field to the
fresh required-string definition — the sensitive flag and the type of the
pre-existing definition are not preserved, contradicting the claim that
only the required flag and description change. -/
theorem c4_cex :
    (findKey (regionAddition
      ({ name := "aws_legacy", shortGroup := "s3",
         terraformSchema := [("region",
           { type := ValueType.typeBool, optional := true,
             sensitive := true, description := "legacy" })] } : Resource)).terraformSchema
      "region").map Schema.sensitive = some false ∧
    (findKey
      (({ name := "aws_legacy", shortGroup := "s3",
          terraformSchema := [("region",
            { type := ValueType.typeBool, optional := true,
              sensitive := true, description := "legacy" })] } : Resource)).terraformSchema
      "region").map Schema.sensitive = some true ∧
    (findKey (regionAddition
      ({ name := "aws_legacy", shortGroup := "s3",
         terraformSchema := [("region",
           { type := ValueType.typeBool, optional := true,
             sensitive := true, description := "legacy" })] } : Resource)).terraformSchema
      "region").map Schema.type = some ValueType.typeString ∧
    (findKey
      (({ name := "aws_legacy", shortGroup := "s3",
          terraformSchema := [("region",
            { type := ValueType.typeBool, optional := true,
              sensitive := true, description := "legacy" })] } : Resource)).terraformSchema
      "region").map Schema.type = some ValueType.typeBool := by
  refine ⟨?_, ?_, ?_, ?_⟩ <;> decide

/-- C4 (amended): on every non-`iam` descriptor whose schema respects the
Go-map key-uniqueness invariant, region injection replaces the `region`
binding wholesale with the fixed required-string entry, leaves every other
field untouched, and does not duplicate the field. -/
theorem c4_region_replacement (r : Resource)
    (hiam : r.shortGroup ≠ "iam")
    (hcnt : countKey r.terraformSchema "region" ≤ 1) :
    findKey (regionAddition r).terraformSchema "region" = some regionSchema ∧
    countKey (regionAddition r).terraformSchema "region" = 1 ∧
    (∀ k, k ≠ "region" →
      findKey (regionAddition r).terraformSchema k =
        findKey r.terraformSchema k) := by
  unfold regionAddition
  rw [if_neg hiam]
  refine ⟨findKey_insertKey_self r.terraformSchema "region" regionSchema,
    ?_, ?_⟩
  · show countKey (insertKey r.terraformSchema "region" regionSchema)
      "region" = 1
    rw [countKey_insertKey]
    by_cases hz : countKey r.terraformSchema "region" = 0
    · simp [hz]
    · rw [if_neg hz]
      omega
  · intro k hk
    exact findKey_insertKey_ne r.terraformSchema "region" k regionSchema hk

/-- C4 witness: the amended statement on a concrete `s3` descriptor that
already holds a `region` field plus one other field. -/
theorem c4_wit :
    findKey (regionAddition
      ({ name := "aws_bucket", shortGroup := "s3",
         terraformSchema := [("region",
           { type := ValueType.typeBool, optional := true }),
           ("bucket",
            { type := ValueType.typeString, optional := true })] } : Resource)).terraformSchema "region" =
      some regionSchema := by
  exact (c4_region_replacement
    ({ name := "aws_bucket", shortGroup := "s3",
       terraformSchema := [("region",
         { type := ValueType.typeBool, optional := true }),
         ("bucket",
          { type := ValueType.typeString, optional := true })] } : Resource)
    (by decide) (by decide)).1

/-- C5: for every descriptor outside the sentinel `iam` group, region
injection binds `region` to a required string field whose description is
the fixed comment rendered with the Terraform tag set to `-` (excluded from
Terraform serialization); on an `iam`-group descriptor the mutator returns
the descriptor unchanged. -/
theorem c5_region_injection (r : Resource) :
    (r.shortGroup ≠ "iam" →
      findKey (regionAddition r).terraformSchema "region" =
        some regionSchema) ∧
    (r.shortGroup = "iam" → regionAddition r = r) ∧
    regionSchema.required = true ∧
    regionSchema.type = ValueType.typeString ∧
    regionSchema.description = regionComment.render ∧
    regionComment.text = regionDesc ∧
    regionComment.tfTag = some "-" := by
  refine ⟨?_, ?_, rfl, rfl, rfl, rfl, rfl⟩
  · intro h
    unfold regionAddition
    rw [if_neg h]
    exact findKey_insertKey_self r.terraformSchema "region" regionSchema
  · intro h
    unfold regionAddition
    rw [if_pos h]

/-- C5 witness: both halves at concrete descriptors (an `sqs` and an `iam`
one). -/
theorem c5_wit :
    findKey (regionAddition
      ({ name := "aws_sqs_queue", shortGroup := "sqs" } : Resource)).terraformSchema
      "region" = some regionSchema ∧
    regionAddition ({ name := "aws_iam_role", shortGroup := "iam" } : Resource) =
      ({ name := "aws_iam_role", shortGroup := "iam" } : Resource) := by
  constructor
  · exact (c5_region_injection
      ({ name := "aws_sqs_queue", shortGroup := "sqs" } : Resource)).1
      (by decide)
  · exact (c5_region_injection
      ({ name := "aws_iam_role", shortGroup := "iam" } : Resource)).2.1 rfl

/-- C6: a non-computed-only, non-sensitive `vpc_id` field receives the
short intra-group `VPC` target type on an `ec2`-group descriptor and the
fully qualified cross-group type on any other group; the ref/selector field
names are `VpcIdRef`/`VpcIdSelector` in both cases. -/
theorem c6_vpc_id_reference (r : Resource) (s : Schema)
    (hwf : r.wfSchema)
    (hfind : findKey r.terraformSchema "vpc_id" = some s)
    (hskip : ((s.computed && !s.optional) || s.sensitive) = false) :
    findKey (knownReferencers r).references "vpc_id" =
      some (if r.shortGroup = "ec2" then vpcIdShortRef else vpcIdRef) ∧
    vpcIdShortRef.type = "VPC" ∧
    vpcIdRef.type =
      "github.com/crossplane-contrib/provider-jet-aws/apis/ec2/v1alpha2.VPC" ∧
    vpcIdShortRef.refFieldName = "VpcIdRef" ∧
    vpcIdShortRef.selectorFieldName = "VpcIdSelector" ∧
    vpcIdRef.refFieldName = "VpcIdRef" ∧
    vpcIdRef.selectorFieldName = "VpcIdSelector" := by
  have hrule : fieldRule r.shortGroup "vpc_id" s =
      some (if r.shortGroup = "ec2" then vpcIdShortRef else vpcIdRef) := by
    unfold fieldRule ruleValue exactRule
    rw [if_neg (by simp [hskip])]
    simp
  refine ⟨?_, rfl, rfl, rfl, rfl, rfl, rfl⟩
  rw [knownReferencers_findKey r "vpc_id" hwf, hfind]
  simp [hrule]

/-- C6 witness: the same `vpc_id` field on an `ec2` descriptor and on an
`rds` descriptor, with the two different target types. -/
theorem c6_wit :
    findKey (knownReferencers
      ({ name := "aws_subnet", shortGroup := "ec2",
         terraformSchema := [("vpc_id",
           { type := ValueType.typeString, optional := true })] } : Resource)).references
      "vpc_id" = some vpcIdShortRef ∧
    findKey (knownReferencers
      ({ name := "aws_db_instance", shortGroup := "rds",
         terraformSchema := [("vpc_id",
           { type := ValueType.typeString, optional := true })] } : Resource)).references
      "vpc_id" = some vpcIdRef := by
  constructor
  · have h := (c6_vpc_id_reference
      ({ name := "aws_subnet", shortGroup := "ec2",
         terraformSchema := [("vpc_id",
           { type := ValueType.typeString, optional := true })] } : Resource)
      ({ type := ValueType.typeString, optional := true } : Schema)
      (by decide) (by decide) (by decide)).1
    simpa using h
  · have h := (c6_vpc_id_reference
      ({ name := "aws_db_instance", shortGroup := "rds",
         terraformSchema := [("vpc_id",
           { type := ValueType.typeString, optional := true })] } : Resource)
      ({ type := ValueType.typeString, optional := true } : Schema)
      (by decide) (by decide) (by decide)).1
    simpa using h

/-- C7: the reference-wiring mutator adds no references entry for a field
that is computed-and-not-optional or sensitive: if no entry existed for
that field name before, none exists after, whatever the field name. -/
theorem c7_no_reference_for_status (r : Resource) (k : String) (s : Schema)
    (hwf : r.wfSchema)
    (hfind : findKey r.terraformSchema k = some s)
    (hskip : ((s.computed && !s.optional) || s.sensitive) = true)
    (hpre : findKey r.references k = none) :
    findKey (knownReferencers r).references k = none := by
  have hrule : fieldRule r.shortGroup k s = none := by
    unfold fieldRule
    rw [if_pos hskip]
  rw [knownReferencers_findKey r k hwf, hfind]
  simp [hrule, hpre]

/-- C7 witness: a sensitive `vpc_id` field (an otherwise reference-eligible
exact name) receives no reference entry. -/
theorem c7_wit :
    findKey (knownReferencers
      ({ name := "aws_db_instance", shortGroup := "rds",
         terraformSchema := [("vpc_id",
           { type := ValueType.typeString, optional := true,
             sensitive := true })] } : Resource)).references "vpc_id" =
      none := by
  exact c7_no_reference_for_status
    ({ name := "aws_db_instance", shortGroup := "rds",
       terraformSchema := [("vpc_id",
         { type := ValueType.typeString, optional := true,
           sensitive := true })] } : Resource)
    "vpc_id"
    ({ type := ValueType.typeString, optional := true,
       sensitive := true } : Schema)
    (by decide) (by decide) (by decide) (by decide)

/-- C8: when a `tags_all` field exists, the tags_all mutator rebinds it
computed-only (computed true, optional false) while keeping it present and
leaving every other field untouched; when no `tags_all` field exists the
descriptor is returned entirely unchanged. -/
theorem c8_tags_all (r : Resource) :
    (∀ s, findKey r.terraformSchema "tags_all" = some s →
      findKey (tagsAllRemoval r).terraformSchema "tags_all" =
        some ({ s with computed := true, optional := false }) ∧
      (∀ k, k ≠ "tags_all" →
        findKey (tagsAllRemoval r).terraformSchema k =
          findKey r.terraformSchema k)) ∧
    (findKey r.terraformSchema "tags_all" = none → tagsAllRemoval r = r) := by
  constructor
  · intro s h
    simp only [tagsAllRemoval, h]
    constructor
    · exact findKey_insertKey_self r.terraformSchema "tags_all" _
    · intro k hk
      exact findKey_insertKey_ne r.terraformSchema "tags_all" k _ hk
  · intro h
    simp only [tagsAllRemoval, h]

/-- C8 witness: both halves at concrete descriptors, one holding a settable
`tags_all` map field, one without it. -/
theorem c8_wit :
    findKey (tagsAllRemoval
      ({ name := "aws_x", shortGroup := "s3",
         terraformSchema := [("tags_all",
           { type := ValueType.typeMap, optional := true })] } : Resource)).terraformSchema
      "tags_all" =
        some ({ type := ValueType.typeMap, optional := false,
                computed := true } : Schema) ∧
    tagsAllRemoval ({ name := "aws_y", shortGroup := "s3" } : Resource) =
      ({ name := "aws_y", shortGroup := "s3" } : Resource) := by
  constructor
  · exact ((c8_tags_all
      ({ name := "aws_x", shortGroup := "s3",
         terraformSchema := [("tags_all",
           { type := ValueType.typeMap, optional := true })] } : Resource)).1
      ({ type := ValueType.typeMap, optional := true } : Schema) rfl).1
  · exact (c8_tags_all
      ({ name := "aws_y", shortGroup := "s3" } : Resource)).2 rfl

/-- C9: when the comment collaborator rejects the region description, the
region mutator aborts with an error (the Go panic) instead of producing a
descriptor, for every resource outside the sentinel group; on the accepted
fixed comment it returns exactly the pure mutation.  The other operations
are total: a name absent from either override table leaves the descriptor
unchanged, and the naming transform yields a (possibly empty) string on
every input. -/
theorem c9_fail_fast (r : Resource) (e : String) :
    (r.shortGroup ≠ "iam" →
      regionAdditionWith (Except.error e) r =
        Except.error ("cannot build comment for region: " ++ e)) ∧
    regionAdditionWith (Except.ok regionComment) r =
      Except.ok (regionAddition r) ∧
    (findKey GroupMap r.name = none → groupKindOverrides r = r) ∧
    (findKey KindMap r.name = none → kindOverrides r = r) ∧
    snakeToPascal "" = "" := by
  refine ⟨?_, ?_, ?_, ?_, rfl⟩
  · intro h
    unfold regionAdditionWith
    rw [if_neg h]
  · unfold regionAdditionWith regionAddition
    by_cases h : r.shortGroup = "iam"
    · rw [if_pos h, if_pos h]
    · rw [if_neg h, if_neg h]
      rfl
  · intro h
    simp only [groupKindOverrides, h]
  · intro h
    simp only [kindOverrides, h]

/-- C9 witness: the abort on a rejected comment and the not-found lookups,
at a concrete descriptor whose name is in neither override table. -/
theorem c9_wit :
    regionAdditionWith (Except.error "bad input")
      ({ name := "aws_sqs_queue", shortGroup := "sqs" } : Resource) =
      Except.error "cannot build comment for region: bad input" ∧
    groupKindOverrides
      ({ name := "aws_sqs_queue", shortGroup := "sqs" } : Resource) =
      ({ name := "aws_sqs_queue", shortGroup := "sqs" } : Resource) ∧
    kindOverrides
      ({ name := "aws_sqs_queue", shortGroup := "sqs" } : Resource) =
      ({ name := "aws_sqs_queue", shortGroup := "sqs" } : Resource) := by
  have h := c9_fail_fast
    ({ name := "aws_sqs_queue", shortGroup := "sqs" } : Resource) "bad input"
  exact ⟨h.1 (by decide), h.2.2.1 (by decide), h.2.2.2.1 (by decide)⟩

/-- C10: the default chain of `GetProvider` assigns the external-name
strategy (resetting its omitted-fields set) strictly before the name-prefix
omission, so every descriptor it produces carries `name_prefix` exactly
once in its external-name omitted-fields list. -/
theorem c10_chain_name_once (r : Resource) :
    (defaultResourceChain r).externalName.omittedFields = ["name_prefix"] ∧
    List.count "name_prefix"
      (defaultResourceChain r).externalName.omittedFields = 1 :=
  ⟨rfl, rfl⟩

end Aws4Config
